import Mathlib

/-!
Verification development for the Compass benefits-navigator repository.

The repository's frontend client (`frontend/js/api.js`, `app.js`, `voice.js`)
is embedded directly from its JavaScript source.  The backend core (the
eligibility rule engine, tool registry, conversation orchestrator and session
store, i.e. `backend/tools/eligibility.py`, `backend/agents/orchestrator.py`,
`backend/database.py`) is not present in the sources available here; those
components are modelled from the specification, as marked on each definition.
-/

namespace Compass

/-- Engine confidence band for a program judgment (spec §3 `EligibilityResult`). -/
inductive Likelihood where
  | low
  | medium
  | high
deriving DecidableEq, Repr

/-- Numeric rank of a likelihood band, used to state "medium or better" and
"never strictly higher" comparisons. -/
def Likelihood.rank : Likelihood → Nat
  | .low => 1
  | .medium => 2
  | .high => 3

/-- Rank of an optional likelihood: an omitted program counts strictly below
every returned band. -/
def optionRank : Option Likelihood → Nat
  | none => 0
  | some l => l.rank

/-- Modelled from the spec (§3, §4.1): the versioned reference-threshold table
(`backend/config.py` is not under the available sources).  `fpl` gives the
federal poverty guideline and `ami` the area median income, each as a function
of household size. -/
structure ThresholdTable where
  fpl : Nat → ℚ
  ami : Nat → ℚ

/-- Modelled from the spec (§3 `HouseholdProfile`): the validated input given
to the eligibility rule engine. -/
structure EligProfile where
  annual_income : ℚ
  household_size : Nat
  state : Option String
  age : Option Nat
  disability_flag : Option Bool
  zip_code : Option String

/-- Modelled from the spec (§3 `Program`, §4.1): the per-category eligibility
rule parameters of a program (`backend/data/benefits_db.py` is not under the
available sources). -/
inductive Rule where
  | incomeThreshold (povertyPct margin : ℚ) (secondaryPct : Option ℚ)
  | phaseInOut (phaseInEnd plateauEnd cutoff : ℚ)
  | fixedCap (ceiling : ℚ)
  | amiRelative (amiPct margin : ℚ)
  | stateConditional (povertyPct margin : ℚ) (expansionStates : List String)

/-- Poverty-percentage threshold: `pct` percent of the poverty guideline for
the household size (spec §4.1, income-threshold programs). -/
def itThreshold (t : ThresholdTable) (size : Nat) (pct : ℚ) : ℚ :=
  t.fpl size * pct / 100

/-- Area-median-income threshold: `pct` percent of the region's AMI for the
household size (spec §4.1, AMI-relative programs). -/
def amiThreshold (t : ThresholdTable) (size : Nat) (pct : ℚ) : ℚ :=
  t.ami size * pct / 100

/-- Modelled from the spec (§4.1, income-threshold programs): at-or-below the
poverty-percentage threshold ⇒ eligible (high); within the configurable margin
above it ⇒ "medium" to reflect estimation uncertainty; above the margin ⇒
excluded, unless a secondary looser threshold admits a "low" entry. -/
def evalIncome (t : ThresholdTable) (p : EligProfile)
    (pct margin : ℚ) (secondaryPct : Option ℚ) : Option Likelihood :=
  if p.annual_income ≤ itThreshold t p.household_size pct then some .high
  else if p.annual_income ≤ itThreshold t p.household_size pct * (100 + margin) / 100 then
    some .medium
  else
    match secondaryPct with
    | some s =>
        if p.annual_income ≤ itThreshold t p.household_size s then some .low else none
    | none => none

/-- Modelled from the spec (§4.1): rule evaluation per program category.
Phase-in/phase-out: "high" only strictly inside the plateau, "medium" in the
phase bands and at band boundaries, omitted above the cutoff (§8).  Fixed cap:
strictly below the ceiling ⇒ eligible.  AMI-relative: same near-threshold
"medium" rule as income thresholds.  State-conditional: a missing state is
indeterminate (omit); a non-participating state caps the achievable likelihood
even if income qualifies. -/
def evalRule (t : ThresholdTable) (p : EligProfile) : Rule → Option Likelihood
  | .incomeThreshold pct m sec => evalIncome t p pct m sec
  | .phaseInOut b c d =>
      if p.annual_income ≤ d then
        if b < p.annual_income ∧ p.annual_income < c then some .high else some .medium
      else none
  | .fixedCap ceiling =>
      if p.annual_income < ceiling then some .high else none
  | .amiRelative pct m =>
      if p.annual_income ≤ amiThreshold t p.household_size pct then some .high
      else if p.annual_income ≤ amiThreshold t p.household_size pct * (100 + m) / 100 then
        some .medium
      else none
  | .stateConditional pct m states =>
      match p.state with
      | none => none
      | some s =>
          match evalIncome t p pct m none with
          | none => none
          | some l => if s ∈ states then some l else some .low

/-- Modelled from the spec (§3 `EligibilityResult`). -/
structure EligibilityResult where
  program_id : String
  likelihood : Likelihood
  estimated_value : String
deriving DecidableEq, Repr

/-- Modelled from the spec (§3 `Program`). -/
structure Program where
  id : String
  name : String
  rule : Rule
  estimated_value : String

/-- Judgment of a single program against a profile; `none` means the program
is omitted from the result list. -/
def evalProgram (t : ThresholdTable) (p : EligProfile) (prog : Program) :
    Option EligibilityResult :=
  (evalRule t p prog.rule).map fun l => ⟨prog.id, l, prog.estimated_value⟩

/-- Modelled from the spec (§4.1): the eligibility rule engine — a pure
function from profile and catalog to the list of per-program results, omitting
programs whose rule yields no judgment. -/
def runEngine (catalog : List Program) (t : ThresholdTable) (p : EligProfile) :
    List EligibilityResult :=
  catalog.filterMap (evalProgram t p)

/-! ### C1: behaviour of income-threshold programs at and above the threshold -/

/-- C1: For an income-threshold program, a profile whose annual income is
exactly at the poverty-percentage threshold is included with likelihood
"medium" or better, and (when the program defines no secondary looser
threshold) a profile at 2× the threshold is excluded entirely. -/
theorem income_threshold_boundary (t : ThresholdTable) (pct m : ℚ) (p : EligProfile)
    (hT : 0 < itThreshold t p.household_size pct) (hm : m < 100)
    (hat : p.annual_income = itThreshold t p.household_size pct) :
    Likelihood.medium.rank ≤
      optionRank (evalRule t p (.incomeThreshold pct m none)) ∧
    evalRule t { p with annual_income := 2 * itThreshold t p.household_size pct }
      (.incomeThreshold pct m none) = none := by
  constructor
  · have h1 : p.annual_income ≤ itThreshold t p.household_size pct := le_of_eq hat
    simp [evalRule, evalIncome, h1, optionRank, Likelihood.rank]
  · have hsize : ({ p with annual_income := 2 * itThreshold t p.household_size pct }
        : EligProfile).household_size = p.household_size := rfl
    set T := itThreshold t p.household_size pct with hTdef
    have h1 : ¬ (2 * T ≤ T) := by nlinarith
    have h2 : ¬ (2 * T ≤ T * (100 + m) / 100) := by
      rw [not_le, div_lt_iff₀ (by norm_num : (0:ℚ) < 100)]
      nlinarith
    simp [evalRule, evalIncome, hsize, ← hTdef, h1, h2]

/-- Witness for `income_threshold_boundary`: a concrete table (poverty
guideline $15,000 for a household of 1), a 130%-of-poverty program with a 10%
margin, and incomes of $19,500 (at threshold) and $39,000 (2× threshold). -/
theorem income_threshold_boundary_witness :
    Likelihood.medium.rank ≤
      optionRank (evalRule ⟨fun _ => 15000, fun _ => 50000⟩
        ⟨19500, 1, some "CA", none, none, none⟩ (.incomeThreshold 130 10 none)) ∧
    evalRule ⟨fun _ => 15000, fun _ => 50000⟩
      ⟨2 * itThreshold ⟨fun _ => 15000, fun _ => 50000⟩ 1 130, 1, some "CA", none, none, none⟩
      (.incomeThreshold 130 10 none) = none := by
  have h := income_threshold_boundary ⟨fun _ => 15000, fun _ => 50000⟩ 130 10
    ⟨19500, 1, some "CA", none, none, none⟩
    (by norm_num [itThreshold]) (by norm_num)
    (by norm_num [itThreshold])
  exact h

/-! ### C4: state-conditional programs never favour the non-participating state -/

/-- C4: For two profiles identical except for state membership in a
state-conditional program — one in a participating/expansion state, the other
not — the engine never returns a strictly higher likelihood for the
non-participating state. -/
theorem state_conditional_monotone (t : ThresholdTable) (pct m : ℚ)
    (states : List String) (p₁ p₂ : EligProfile) (s₁ s₂ : String)
    (hinc : p₂.annual_income = p₁.annual_income)
    (hsize : p₂.household_size = p₁.household_size)
    (hs₁ : p₁.state = some s₁) (hs₂ : p₂.state = some s₂)
    (hin : s₁ ∈ states) (hout : s₂ ∉ states) :
    optionRank (evalRule t p₂ (.stateConditional pct m states)) ≤
      optionRank (evalRule t p₁ (.stateConditional pct m states)) := by
  have hbase : evalIncome t p₂ pct m none = evalIncome t p₁ pct m none := by
    unfold evalIncome itThreshold
    rw [hinc, hsize]
  simp only [evalRule, hs₁, hs₂, hbase]
  cases h : evalIncome t p₁ pct m none with
  | none => simp [optionRank]
  | some l =>
      simp only [hin, hout, if_pos, if_neg, ite_true, ite_false, not_false_eq_true]
      cases l <;> simp [optionRank, Likelihood.rank]

/-- Witness for `state_conditional_monotone`: a 138%-of-poverty expansion
program with participating state list `["CA"]`, comparing an income-qualifying
household in CA against the same household in TX. -/
theorem state_conditional_monotone_witness :
    optionRank (evalRule ⟨fun _ => 15000, fun _ => 50000⟩
      ⟨10000, 1, some "TX", none, none, none⟩ (.stateConditional 138 10 ["CA"])) ≤
    optionRank (evalRule ⟨fun _ => 15000, fun _ => 50000⟩
      ⟨10000, 1, some "CA", none, none, none⟩ (.stateConditional 138 10 ["CA"])) :=
  state_conditional_monotone ⟨fun _ => 15000, fun _ => 50000⟩ 138 10 ["CA"]
    ⟨10000, 1, some "CA", none, none, none⟩ ⟨10000, 1, some "TX", none, none, none⟩
    "CA" "TX" rfl rfl rfl rfl (by decide) (by decide)

/-! ### C5: validation errors are rejected before the handler runs -/

/-- Modelled from the spec (§4.2, §7): the structured outcome a registry
dispatch hands back to the orchestrator — either the handler's output or a
typed error record (validation errors and handler errors alike are recorded,
never thrown). -/
inductive ToolOutcome where
  | ok (results : List EligibilityResult)
  | error (msg : String)
deriving DecidableEq, Repr

/-- Modelled from the spec (§3 `ToolCall`): one entry of a turn's trace. -/
structure ToolCall where
  name : String
  output : ToolOutcome
deriving DecidableEq, Repr

/-- Modelled from the spec (§4.2, §4.1 edge-case policy): registry dispatch of
the eligibility tool.  Input with `household_size < 1` or negative income is a
validation error returned without invoking the handler; valid input runs the
rule engine.  The second component records whether the handler executed. -/
def dispatchEligibility (catalog : List Program) (t : ThresholdTable) (p : EligProfile) :
    ToolOutcome × Bool :=
  if 1 ≤ p.household_size ∧ 0 ≤ p.annual_income then
    (.ok (runEngine catalog t p), true)
  else
    (.error "validation error: household_size must be >= 1 and annual_income >= 0", false)

/-- The orchestrator-side execution of an eligibility tool request: the
dispatch outcome (success or structured error) becomes the ToolCall's recorded
output, fed back to the inference service rather than aborting the turn. -/
def execEligibilityTool (catalog : List Program) (t : ThresholdTable) (p : EligProfile) :
    ToolCall :=
  ⟨"check_benefit_eligibility", (dispatchEligibility catalog t p).1⟩

/-- C5: An input with `household_size < 1` or negative income produces a
validation error: the handler is never executed, the outcome is not a
"zero eligibility" result list (indeed not an `ok` at all), and the tool call
records the error as its output. -/
theorem invalid_input_rejected (catalog : List Program) (t : ThresholdTable)
    (p : EligProfile) (hbad : p.household_size < 1 ∨ p.annual_income < 0) :
    (∃ msg, (dispatchEligibility catalog t p).1 = .error msg) ∧
    (dispatchEligibility catalog t p).2 = false ∧
    (∀ rs, (dispatchEligibility catalog t p).1 ≠ .ok rs) ∧
    (∃ msg, execEligibilityTool catalog t p = ⟨"check_benefit_eligibility", .error msg⟩) := by
  have hcond : ¬ (1 ≤ p.household_size ∧ 0 ≤ p.annual_income) := by
    rcases hbad with h | h
    · exact fun hc => absurd hc.1 (by omega)
    · exact fun hc => absurd hc.2 (by linarith)
  have hdisp : dispatchEligibility catalog t p =
      (.error "validation error: household_size must be >= 1 and annual_income >= 0",
        false) := by
    simp [dispatchEligibility, hcond]
  refine ⟨⟨_, by rw [hdisp]⟩, by rw [hdisp], fun rs => by rw [hdisp]; simp,
    ⟨"validation error: household_size must be >= 1 and annual_income >= 0",
      by unfold execEligibilityTool; rw [hdisp]⟩⟩

/-- Witness for `invalid_input_rejected`: a household of size 0. -/
theorem invalid_input_rejected_witness :
    (∃ msg, (dispatchEligibility [] ⟨fun _ => 15000, fun _ => 50000⟩
      ⟨20000, 0, none, none, none, none⟩).1 = .error msg) ∧
    (dispatchEligibility [] ⟨fun _ => 15000, fun _ => 50000⟩
      ⟨20000, 0, none, none, none, none⟩).2 = false ∧
    (∀ rs, (dispatchEligibility [] ⟨fun _ => 15000, fun _ => 50000⟩
      ⟨20000, 0, none, none, none, none⟩).1 ≠ .ok rs) ∧
    (∃ msg, execEligibilityTool [] ⟨fun _ => 15000, fun _ => 50000⟩
      ⟨20000, 0, none, none, none, none⟩ = ⟨"check_benefit_eligibility", .error msg⟩) :=
  invalid_input_rejected [] ⟨fun _ => 15000, fun _ => 50000⟩
    ⟨20000, 0, none, none, none, none⟩ (Or.inl (by decide))

/-! ### C3: the orchestrator loop terminates at the configured cap -/

/-- Modelled from the spec (§4.3, §9): the typed union of inference-service
responses — either a request for tool invocations or final text. -/
inductive ModelResponse (Req : Type) where
  | toolUse (reqs : List Req)
  | finalText (text : String)

/-- Modelled from the spec (§4.3): result of one orchestrated turn — the
assistant text, the turn's trace, whether the trace is marked "truncated",
and the number of inference round-trips consumed. -/
structure TurnResult where
  text : String
  trace : List ToolCall
  truncated : Bool
  rounds : Nat
deriving DecidableEq, Repr

/-- Modelled from the spec (§4.3): the best-effort text composed from whatever
tool outputs were gathered when the round-trip cap is exhausted. -/
def bestEffortText (trace : List ToolCall) : String :=
  "Here is what I could gather from " ++ toString trace.length ++ " tool result(s) so far."

/-- Modelled from the spec (§4.3, §9): the orchestrator's bounded tool-use
loop, written as an explicit loop with a step counter.  `infer i` is the
external inference service's response on round-trip `i`; `exec` dispatches one
requested tool call through the registry.  Exhausting the fuel forces a FINAL
transition with best-effort text and the trace marked truncated. -/
def orchLoop {Req : Type} (infer : Nat → ModelResponse Req) (exec : Req → ToolCall) :
    Nat → Nat → List ToolCall → TurnResult
  | 0, i, trace => ⟨bestEffortText trace, trace, true, i⟩
  | fuel + 1, i, trace =>
      match infer i with
      | .finalText s => ⟨s, trace, false, i + 1⟩
      | .toolUse reqs => orchLoop infer exec fuel (i + 1) (trace ++ reqs.map exec)

/-- Modelled from the spec (§4.3): run one turn under the configured hard cap
on inference round-trips. -/
def runTurn {Req : Type} (infer : Nat → ModelResponse Req) (exec : Req → ToolCall)
    (cap : Nat) : TurnResult :=
  orchLoop infer exec cap 0 []

/-- The loop consumes at most `fuel` further round-trips beyond the `i`
already spent. -/
theorem orchLoop_rounds_le {Req : Type} (infer : Nat → ModelResponse Req)
    (exec : Req → ToolCall) :
    ∀ (fuel i : Nat) (trace : List ToolCall),
      (orchLoop infer exec fuel i trace).rounds ≤ i + fuel := by
  intro fuel
  induction fuel with
  | zero => intro i trace; simp [orchLoop]
  | succ n ih =>
      intro i trace
      unfold orchLoop
      cases infer i with
      | finalText s => dsimp only; omega
      | toolUse reqs =>
          dsimp only
          have := ih (i + 1) (trace ++ reqs.map exec)
          omega

/-- If the inference service requests a tool call on every round-trip, the
loop exhausts its fuel: the result is truncated, uses exactly the capped
number of round-trips, and carries the best-effort text for its trace. -/
theorem orchLoop_hostile {Req : Type} (infer : Nat → ModelResponse Req)
    (exec : Req → ToolCall) (hh : ∀ i, ∃ reqs, infer i = .toolUse reqs) :
    ∀ (fuel i : Nat) (trace : List ToolCall),
      (orchLoop infer exec fuel i trace).truncated = true ∧
      (orchLoop infer exec fuel i trace).rounds = i + fuel ∧
      (orchLoop infer exec fuel i trace).text =
        bestEffortText (orchLoop infer exec fuel i trace).trace := by
  intro fuel
  induction fuel with
  | zero => intro i trace; simp [orchLoop]
  | succ n ih =>
      intro i trace
      obtain ⟨reqs, hreqs⟩ := hh i
      unfold orchLoop
      rw [hreqs]
      dsimp only
      obtain ⟨h1, h2, h3⟩ := ih (i + 1) (trace ++ reqs.map exec)
      exact ⟨h1, by omega, h3⟩

/-- C3: Every turn terminates within the configured cap of inference
round-trips, and when the inference service always requests another tool call
the turn still reaches a FINAL result: the trace is marked truncated, exactly
`cap` round-trips were used, and the text is the best-effort composition from
the gathered tool outputs. -/
theorem orchestrator_terminates_at_cap {Req : Type} (infer : Nat → ModelResponse Req)
    (exec : Req → ToolCall) (cap : Nat) :
    (runTurn infer exec cap).rounds ≤ cap ∧
    ((∀ i, ∃ reqs, infer i = .toolUse reqs) →
      (runTurn infer exec cap).truncated = true ∧
      (runTurn infer exec cap).rounds = cap ∧
      (runTurn infer exec cap).text = bestEffortText (runTurn infer exec cap).trace) := by
  constructor
  · simpa using orchLoop_rounds_le infer exec cap 0 []
  · intro hh
    have := orchLoop_hostile infer exec hh cap 0 []
    simpa using this

/-- Witness for `orchestrator_terminates_at_cap`: an inference service that
requests the same (invalid) eligibility tool call forever, run under a cap of
three round-trips. -/
theorem orchestrator_terminates_at_cap_witness :
    (runTurn (fun _ => ModelResponse.toolUse [()])
      (fun _ => execEligibilityTool [] ⟨fun _ => 15000, fun _ => 50000⟩
        ⟨20000, 0, none, none, none, none⟩) 3).rounds ≤ 3 ∧
    ((∀ i, ∃ reqs, (fun _ => ModelResponse.toolUse [()] : Nat → ModelResponse Unit) i
        = .toolUse reqs) →
      (runTurn (fun _ => ModelResponse.toolUse [()])
        (fun _ => execEligibilityTool [] ⟨fun _ => 15000, fun _ => 50000⟩
          ⟨20000, 0, none, none, none, none⟩) 3).truncated = true ∧
      (runTurn (fun _ => ModelResponse.toolUse [()])
        (fun _ => execEligibilityTool [] ⟨fun _ => 15000, fun _ => 50000⟩
          ⟨20000, 0, none, none, none, none⟩) 3).rounds = 3 ∧
      (runTurn (fun _ => ModelResponse.toolUse [()])
        (fun _ => execEligibilityTool [] ⟨fun _ => 15000, fun _ => 50000⟩
          ⟨20000, 0, none, none, none, none⟩) 3).text =
        bestEffortText (runTurn (fun _ => ModelResponse.toolUse [()])
          (fun _ => execEligibilityTool [] ⟨fun _ => 15000, fun _ => 50000⟩
            ⟨20000, 0, none, none, none, none⟩) 3).trace) :=
  orchestrator_terminates_at_cap (fun _ => ModelResponse.toolUse [()])
    (fun _ => execEligibilityTool [] ⟨fun _ => 15000, fun _ => 50000⟩
      ⟨20000, 0, none, none, none, none⟩) 3

/-! ### C6: profile merge never erases a field with a null -/

/-- Modelled from the spec (§3 `HouseholdProfile`, §4.3 merge policy): the
partial household profile accumulated in the session.  Every field is optional
because facts arrive incrementally. -/
structure ProfileFacts where
  annual_income : Option ℚ
  household_size : Option Nat
  state : Option String
  age : Option Nat
  disability_flag : Option Bool
  zip_code : Option String
deriving DecidableEq, Repr

/-- Modelled from the spec (§4.3): field-level merge — a newer non-null value
replaces the earlier one, a null leaves the earlier value in place. -/
def mergeField {α : Type} (old new : Option α) : Option α :=
  match new with
  | some v => some v
  | none => old

/-- Modelled from the spec (§4.3): the HouseholdProfile merges field-by-field,
preferring newer non-null values. -/
def mergeProfile (old incoming : ProfileFacts) : ProfileFacts where
  annual_income := mergeField old.annual_income incoming.annual_income
  household_size := mergeField old.household_size incoming.household_size
  state := mergeField old.state incoming.state
  age := mergeField old.age incoming.age
  disability_flag := mergeField old.disability_flag incoming.disability_flag
  zip_code := mergeField old.zip_code incoming.zip_code

/-- C6: In a profile merge, every field whose incoming value is null retains
its prior value, and every field whose incoming value is non-null takes the
incoming value — no field is silently erased by a null. -/
theorem profile_merge_no_null_erase (old incoming : ProfileFacts) :
    (incoming.annual_income = none →
      (mergeProfile old incoming).annual_income = old.annual_income) ∧
    (∀ v, incoming.annual_income = some v →
      (mergeProfile old incoming).annual_income = some v) ∧
    (incoming.household_size = none →
      (mergeProfile old incoming).household_size = old.household_size) ∧
    (∀ v, incoming.household_size = some v →
      (mergeProfile old incoming).household_size = some v) ∧
    (incoming.state = none → (mergeProfile old incoming).state = old.state) ∧
    (∀ v, incoming.state = some v → (mergeProfile old incoming).state = some v) ∧
    (incoming.age = none → (mergeProfile old incoming).age = old.age) ∧
    (∀ v, incoming.age = some v → (mergeProfile old incoming).age = some v) ∧
    (incoming.disability_flag = none →
      (mergeProfile old incoming).disability_flag = old.disability_flag) ∧
    (∀ v, incoming.disability_flag = some v →
      (mergeProfile old incoming).disability_flag = some v) ∧
    (incoming.zip_code = none → (mergeProfile old incoming).zip_code = old.zip_code) ∧
    (∀ v, incoming.zip_code = some v → (mergeProfile old incoming).zip_code = some v) := by
  refine ⟨fun h => ?_, fun v h => ?_, fun h => ?_, fun v h => ?_, fun h => ?_,
    fun v h => ?_, fun h => ?_, fun v h => ?_, fun h => ?_, fun v h => ?_,
    fun h => ?_, fun v h => ?_⟩ <;> simp [mergeProfile, mergeField, h]

/-- Witness for `profile_merge_no_null_erase`: merging an update that carries
a new income but no state into a profile that already has both. -/
theorem profile_merge_no_null_erase_witness :
    (mergeProfile ⟨some 20000, some 1, some "TX", none, none, none⟩
      ⟨some 14400, none, none, none, none, none⟩).annual_income = some 14400 ∧
    (mergeProfile ⟨some 20000, some 1, some "TX", none, none, none⟩
      ⟨some 14400, none, none, none, none, none⟩).state =
      (⟨some 20000, some 1, some "TX", none, none, none⟩ : ProfileFacts).state :=
  ⟨(profile_merge_no_null_erase ⟨some 20000, some 1, some "TX", none, none, none⟩
      ⟨some 14400, none, none, none, none, none⟩).2.1 14400 rfl,
   (profile_merge_no_null_erase ⟨some 20000, some 1, some "TX", none, none, none⟩
      ⟨some 14400, none, none, none, none, none⟩).2.2.2.2.1 rfl⟩

/-! ### C7: merging the same tool output twice is idempotent -/

/-- Pointwise replacement used by `upsert` when the key is already present. -/
def replaceByKey {α κ : Type} [DecidableEq κ] (key : α → κ) (item x : α) : α :=
  if key x = key item then item else x

/-- Modelled from the spec (§4.3 merge policy): upsert of one entry into a
list keyed by a stable key — replace every entry carrying the same key, or
append when the key is absent. -/
def upsert {α κ : Type} [DecidableEq κ] (key : α → κ) (item : α) (l : List α) :
    List α :=
  if ∃ x ∈ l, key x = key item then l.map (replaceByKey key item)
  else l ++ [item]

/-- Modelled from the spec (§4.3): merging a whole tool-output list entry by
entry into the session's list. -/
def upsertAll {α κ : Type} [DecidableEq κ] (key : α → κ) (items l : List α) :
    List α :=
  items.foldl (fun acc it => upsert key it acc) l

/-- Replaying a whole batch of upserts on a single element. -/
def replayAll {α κ : Type} [DecidableEq κ] (key : α → κ) (items : List α) (x : α) : α :=
  items.foldl (fun y it => replaceByKey key it y) x

/-- A key occurs in a list. -/
def KeyIn {α κ : Type} (key : α → κ) (k : κ) (l : List α) : Prop :=
  ∃ x ∈ l, key x = k

theorem key_replaceByKey {α κ : Type} [DecidableEq κ] (key : α → κ) (item x : α) :
    key (replaceByKey key item x) = key x := by
  unfold replaceByKey
  split_ifs with h
  · exact h.symm
  · rfl

theorem key_replayAll {α κ : Type} [DecidableEq κ] (key : α → κ) (items : List α) :
    ∀ x, key (replayAll key items x) = key x := by
  induction items with
  | nil => intro x; rfl
  | cons it rest ih =>
      intro x
      show key (replayAll key rest (replaceByKey key it x)) = key x
      rw [ih (replaceByKey key it x), key_replaceByKey key it x]

theorem replayAll_idem {α κ : Type} [DecidableEq κ] (key : α → κ) (items : List α) :
    ∀ x, replayAll key items (replayAll key items x) = replayAll key items x := by
  induction items with
  | nil => intro x; rfl
  | cons it rest ih =>
      intro x
      show replayAll key rest (replaceByKey key it (replayAll key rest (replaceByKey key it x)))
        = replayAll key rest (replaceByKey key it x)
      by_cases h : key x = key it
      · have hx : replaceByKey key it x = it := if_pos h
        rw [hx]
        have hk : key (replayAll key rest it) = key it := key_replayAll key rest it
        have hrep : replaceByKey key it (replayAll key rest it) = it := by
          unfold replaceByKey
          rw [if_pos hk]
        rw [hrep]
      · have hx : replaceByKey key it x = x := if_neg h
        rw [hx]
        have hk : key (replayAll key rest x) = key x := key_replayAll key rest x
        have hrep : replaceByKey key it (replayAll key rest x) = replayAll key rest x := by
          unfold replaceByKey
          rw [if_neg (by rw [hk]; exact h)]
        rw [hrep, ih x]

theorem keyIn_upsert_self {α κ : Type} [DecidableEq κ] (key : α → κ) (item : α)
    (l : List α) : KeyIn key (key item) (upsert key item l) := by
  unfold upsert
  split_ifs with h
  · obtain ⟨x, hx, hkx⟩ := h
    exact ⟨item, List.mem_map.2 ⟨x, hx, by unfold replaceByKey; rw [if_pos hkx]⟩, rfl⟩
  · exact ⟨item, List.mem_append_right _ (List.mem_singleton.2 rfl), rfl⟩

theorem keyIn_upsert_mono {α κ : Type} [DecidableEq κ] (key : α → κ) (item : α)
    (k : κ) (l : List α) (h : KeyIn key k l) : KeyIn key k (upsert key item l) := by
  obtain ⟨x, hx, hkx⟩ := h
  unfold upsert
  split_ifs with hp
  · refine ⟨replaceByKey key item x, List.mem_map.2 ⟨x, hx, rfl⟩, ?_⟩
    rw [key_replaceByKey key item x, hkx]
  · exact ⟨x, List.mem_append_left _ hx, hkx⟩

theorem keyIn_upsertAll_mono {α κ : Type} [DecidableEq κ] (key : α → κ)
    (items : List α) : ∀ (k : κ) (l : List α), KeyIn key k l →
      KeyIn key k (upsertAll key items l) := by
  induction items with
  | nil => intro k l h; exact h
  | cons it rest ih =>
      intro k l h
      exact ih k (upsert key it l) (keyIn_upsert_mono key it k l h)

theorem keyIn_upsertAll_of_mem {α κ : Type} [DecidableEq κ] (key : α → κ)
    (items : List α) : ∀ (item : α), item ∈ items → ∀ (l : List α),
      KeyIn key (key item) (upsertAll key items l) := by
  induction items with
  | nil => intro item h; cases h
  | cons it rest ih =>
      intro item h l
      rcases List.mem_cons.1 h with rfl | hmem
      · exact keyIn_upsertAll_mono key rest _ _ (keyIn_upsert_self key item l)
      · exact ih item hmem (upsert key it l)

theorem keyIn_map_replace {α κ : Type} [DecidableEq κ] (key : α → κ) (item : α)
    (k : κ) (l : List α) (h : KeyIn key k l) :
    KeyIn key k (l.map (replaceByKey key item)) := by
  obtain ⟨x, hx, hkx⟩ := h
  exact ⟨replaceByKey key item x, List.mem_map.2 ⟨x, hx, rfl⟩,
    by rw [key_replaceByKey key item x, hkx]⟩

theorem upsert_of_keyIn {α κ : Type} [DecidableEq κ] (key : α → κ) (item : α)
    (l : List α) (h : KeyIn key (key item) l) :
    upsert key item l = l.map (replaceByKey key item) := by
  unfold upsert replaceByKey
  exact if_pos h

theorem upsertAll_eq_map {α κ : Type} [DecidableEq κ] (key : α → κ)
    (items : List α) : ∀ (l : List α), (∀ item ∈ items, KeyIn key (key item) l) →
      upsertAll key items l = l.map (replayAll key items) := by
  induction items with
  | nil =>
      intro l _
      show l = l.map (replayAll key [])
      have h : l.map (replayAll key []) = l.map id := rfl
      rw [h, List.map_id]
  | cons it rest ih =>
      intro l h
      show upsertAll key rest (upsert key it l) = l.map (replayAll key (it :: rest))
      rw [upsert_of_keyIn key it l (h it (List.mem_cons_self it rest))]
      rw [ih (l.map (replaceByKey key it))
        (fun x hx => keyIn_map_replace key it (key x) l (h x (List.mem_cons_of_mem it hx)))]
      rw [List.map_map]
      rfl

/-- All entries of a list that carry key `k` are equal to `v`. -/
def SettledAt {α κ : Type} (key : α → κ) (k : κ) (v : α) (l : List α) : Prop :=
  ∀ x ∈ l, key x = k → x = v

theorem settled_upsert_self {α κ : Type} [DecidableEq κ] (key : α → κ) (item : α)
    (l : List α) : SettledAt key (key item) item (upsert key item l) := by
  unfold upsert
  split_ifs with h
  · intro y hy hk
    obtain ⟨x, _, rfl⟩ := List.mem_map.1 hy
    by_cases hx : key x = key item
    · unfold replaceByKey; rw [if_pos hx]
    · exfalso
      rw [key_replaceByKey key item x] at hk
      exact hx hk
  · intro y hy hk
    rcases List.mem_append.1 hy with hy | hy
    · exact absurd ⟨y, hy, hk⟩ h
    · exact List.mem_singleton.1 hy

theorem settled_upsert {α κ : Type} [DecidableEq κ] (key : α → κ) (item : α)
    (k : κ) (v : α) (l : List α) (hkv : key v = k) (h : SettledAt key k v l) :
    SettledAt key k (replaceByKey key item v) (upsert key item l) := by
  unfold upsert
  split_ifs with hp
  · intro y hy hk
    obtain ⟨x, hx, rfl⟩ := List.mem_map.1 hy
    have hkx : key x = k := by rwa [← key_replaceByKey key item x]
    rw [h x hx hkx]
  · intro y hy hk
    rcases List.mem_append.1 hy with hy | hy
    · have hyv : y = v := h y hy hk
      have hne : key v ≠ key item := fun heq => hp ⟨y, hy, by rw [hyv, heq]⟩
      rw [hyv]
      unfold replaceByKey
      rw [if_neg hne]
    · have hyit : y = item := List.mem_singleton.1 hy
      have heq : key v = key item := by rw [hkv, ← hk, hyit]
      rw [hyit]
      unfold replaceByKey
      rw [if_pos heq]

theorem settled_upsertAll {α κ : Type} [DecidableEq κ] (key : α → κ)
    (items : List α) : ∀ (k : κ) (v : α) (l : List α), key v = k →
      SettledAt key k v l →
      SettledAt key k (replayAll key items v) (upsertAll key items l) := by
  induction items with
  | nil => intro k v l _ h; exact h
  | cons it rest ih =>
      intro k v l hkv h
      show SettledAt key k (replayAll key rest (replaceByKey key it v))
        (upsertAll key rest (upsert key it l))
      exact ih k (replaceByKey key it v) (upsert key it l)
        (by rw [key_replaceByKey key it v, hkv]) (settled_upsert key it k v l hkv h)

theorem replayAll_fixed_on_result {α κ : Type} [DecidableEq κ] (key : α → κ)
    (items : List α) : ∀ (l : List α) (x : α), x ∈ upsertAll key items l →
      replayAll key items x = x := by
  induction items with
  | nil => intro l x _; rfl
  | cons it rest ih =>
      intro l x hx
      show replayAll key rest (replaceByKey key it x) = x
      by_cases h : key x = key it
      · have hrep : replaceByKey key it x = it := if_pos h
        rw [hrep]
        have hsettled := settled_upsertAll key rest (key it) it (upsert key it l) rfl
          (settled_upsert_self key it l)
        exact (hsettled x hx h).symm
      · have hrep : replaceByKey key it x = x := if_neg h
        rw [hrep]
        exact ih (upsert key it l) x hx

/-- Applying the same batch of keyed upserts twice yields the same list as
applying it once. -/
theorem upsertAll_idem {α κ : Type} [DecidableEq κ] (key : α → κ)
    (items l : List α) :
    upsertAll key items (upsertAll key items l) = upsertAll key items l := by
  rw [upsertAll_eq_map key items (upsertAll key items l)
    (fun item h => keyIn_upsertAll_of_mem key items item h l)]
  calc (upsertAll key items l).map (replayAll key items)
      = (upsertAll key items l).map id := by
        apply List.map_congr_left
        intro x hx
        exact replayAll_fixed_on_result key items l x hx
    _ = upsertAll key items l := List.map_id _

/-- Modelled from the spec (§6, frontend rendering): one entry of the local
resource list; its name is the stable key. -/
structure LocalResource where
  name : String
  type : String
  phone : String
  website : String
deriving DecidableEq, Repr

/-- Modelled from the spec (§6, frontend rendering): one step of the action
plan; its title is the stable key. -/
structure PlanStep where
  step : Nat
  title : String
  action : String
  urgency : String
deriving DecidableEq, Repr

/-- Modelled from the spec (§3 `Session`): the structured part of a session
mutated by merging tool outputs. -/
structure SessionState where
  profile : ProfileFacts
  results : List EligibilityResult
  resources : List LocalResource
  plan : List PlanStep
deriving DecidableEq, Repr

/-- Modelled from the spec (§4.3, §6): the structured payload of one tool
output merged into the session. -/
inductive ToolOutput where
  | eligibility (results : List EligibilityResult)
  | resources (items : List LocalResource)
  | plan (steps : List PlanStep)
  | facts (extracted : ProfileFacts)
deriving DecidableEq, Repr

/-- Modelled from the spec (§4.3 merge policy): eligibility results replace
the full prior set; resource lists and action plans merge by upsert on a
stable key; the profile merges field-by-field preferring newer non-null
values. -/
def applyToolOutput (s : SessionState) : ToolOutput → SessionState
  | .eligibility rs => { s with results := rs }
  | .resources items => { s with resources := upsertAll LocalResource.name items s.resources }
  | .plan steps => { s with plan := upsertAll PlanStep.title steps s.plan }
  | .facts extracted => { s with profile := mergeProfile s.profile extracted }

theorem mergeField_idem {α : Type} (old new : Option α) :
    mergeField (mergeField old new) new = mergeField old new := by
  cases new <;> rfl

/-- C7: Applying the same tool output twice to a session (a retried delivery)
yields the same session state as applying it once: resource and plan lists
merge by upsert on a stable key, so no entry is duplicated. -/
theorem session_merge_idempotent (s : SessionState) (out : ToolOutput) :
    applyToolOutput (applyToolOutput s out) out = applyToolOutput s out := by
  cases out with
  | eligibility rs => rfl
  | resources items => simp [applyToolOutput, upsertAll_idem]
  | plan steps => simp [applyToolOutput, upsertAll_idem]
  | facts extracted => simp [applyToolOutput, mergeProfile, mergeField_idem]

/-! ### C2: the rule engine is deterministic -/

/-- Modelled from the spec (§4.1): the income-threshold judgment as a
relation — one derivation rule per outcome band.  Any two derivations for the
same inputs must agree, which is the content of determinism. -/
inductive IncomeEval (t : ThresholdTable) (p : EligProfile) (pct margin : ℚ) :
    Option ℚ → Option Likelihood → Prop where
  | atOrBelow (sec : Option ℚ) :
      p.annual_income ≤ itThreshold t p.household_size pct →
      IncomeEval t p pct margin sec (some .high)
  | nearThreshold (sec : Option ℚ) :
      ¬ p.annual_income ≤ itThreshold t p.household_size pct →
      p.annual_income ≤ itThreshold t p.household_size pct * (100 + margin) / 100 →
      IncomeEval t p pct margin sec (some .medium)
  | secondaryLow (s : ℚ) :
      ¬ p.annual_income ≤ itThreshold t p.household_size pct →
      ¬ p.annual_income ≤ itThreshold t p.household_size pct * (100 + margin) / 100 →
      p.annual_income ≤ itThreshold t p.household_size s →
      IncomeEval t p pct margin (some s) (some .low)
  | secondaryExcluded (s : ℚ) :
      ¬ p.annual_income ≤ itThreshold t p.household_size pct →
      ¬ p.annual_income ≤ itThreshold t p.household_size pct * (100 + margin) / 100 →
      ¬ p.annual_income ≤ itThreshold t p.household_size s →
      IncomeEval t p pct margin (some s) none
  | excluded :
      ¬ p.annual_income ≤ itThreshold t p.household_size pct →
      ¬ p.annual_income ≤ itThreshold t p.household_size pct * (100 + margin) / 100 →
      IncomeEval t p pct margin none none

/-- Modelled from the spec (§4.1): the per-program rule judgment as a
relation, one derivation rule per branch of every category. -/
inductive RuleEval (t : ThresholdTable) (p : EligProfile) : Rule → Option Likelihood → Prop where
  | income (pct m : ℚ) (sec : Option ℚ) (o : Option Likelihood) :
      IncomeEval t p pct m sec o → RuleEval t p (.incomeThreshold pct m sec) o
  | phaseBeyondCutoff (b c d : ℚ) :
      ¬ p.annual_income ≤ d → RuleEval t p (.phaseInOut b c d) none
  | phasePlateau (b c d : ℚ) :
      p.annual_income ≤ d → (b < p.annual_income ∧ p.annual_income < c) →
      RuleEval t p (.phaseInOut b c d) (some .high)
  | phaseBand (b c d : ℚ) :
      p.annual_income ≤ d → ¬ (b < p.annual_income ∧ p.annual_income < c) →
      RuleEval t p (.phaseInOut b c d) (some .medium)
  | capEligible (ceiling : ℚ) :
      p.annual_income < ceiling → RuleEval t p (.fixedCap ceiling) (some .high)
  | capExcluded (ceiling : ℚ) :
      ¬ p.annual_income < ceiling → RuleEval t p (.fixedCap ceiling) none
  | amiAtOrBelow (pct m : ℚ) :
      p.annual_income ≤ amiThreshold t p.household_size pct →
      RuleEval t p (.amiRelative pct m) (some .high)
  | amiNear (pct m : ℚ) :
      ¬ p.annual_income ≤ amiThreshold t p.household_size pct →
      p.annual_income ≤ amiThreshold t p.household_size pct * (100 + m) / 100 →
      RuleEval t p (.amiRelative pct m) (some .medium)
  | amiExcluded (pct m : ℚ) :
      ¬ p.annual_income ≤ amiThreshold t p.household_size pct →
      ¬ p.annual_income ≤ amiThreshold t p.household_size pct * (100 + m) / 100 →
      RuleEval t p (.amiRelative pct m) none
  | stateUnknown (pct m : ℚ) (states : List String) :
      p.state = none → RuleEval t p (.stateConditional pct m states) none
  | stateIncomeExcluded (pct m : ℚ) (states : List String) (s : String) :
      p.state = some s → IncomeEval t p pct m none none →
      RuleEval t p (.stateConditional pct m states) none
  | stateParticipating (pct m : ℚ) (states : List String) (s : String) (l : Likelihood) :
      p.state = some s → IncomeEval t p pct m none (some l) → s ∈ states →
      RuleEval t p (.stateConditional pct m states) (some l)
  | stateCapped (pct m : ℚ) (states : List String) (s : String) (l : Likelihood) :
      p.state = some s → IncomeEval t p pct m none (some l) → s ∉ states →
      RuleEval t p (.stateConditional pct m states) (some .low)

/-- Every income-threshold derivation agrees with the computed judgment. -/
theorem incomeEval_eq {t : ThresholdTable} {p : EligProfile} {pct m : ℚ}
    {sec : Option ℚ} {o : Option Likelihood} (h : IncomeEval t p pct m sec o) :
    evalIncome t p pct m sec = o := by
  cases h with
  | atOrBelow sec h1 => simp [evalIncome, h1]
  | nearThreshold sec h1 h2 => simp [evalIncome, h1, h2]
  | secondaryLow s h1 h2 h3 => simp [evalIncome, h1, h2, h3]
  | secondaryExcluded s h1 h2 h3 => simp [evalIncome, h1, h2, h3]
  | excluded h1 h2 => simp [evalIncome, h1, h2]

/-- Every rule derivation agrees with the computed judgment. -/
theorem ruleEval_eq {t : ThresholdTable} {p : EligProfile} {r : Rule}
    {o : Option Likelihood} (h : RuleEval t p r o) : evalRule t p r = o := by
  cases h with
  | income pct m sec o hi => exact incomeEval_eq hi
  | phaseBeyondCutoff b c d h1 => simp [evalRule, h1]
  | phasePlateau b c d h1 h2 => simp [evalRule, h1, h2]
  | phaseBand b c d h1 h2 => simp [evalRule, h1, h2]
  | capEligible ceiling h1 => simp [evalRule, h1]
  | capExcluded ceiling h1 => simp [evalRule, h1]
  | amiAtOrBelow pct m h1 => simp [evalRule, h1]
  | amiNear pct m h1 h2 => simp [evalRule, h1, h2]
  | amiExcluded pct m h1 h2 => simp [evalRule, h1, h2]
  | stateUnknown pct m states h1 => simp [evalRule, h1]
  | stateIncomeExcluded pct m states s h1 hi => simp [evalRule, h1, incomeEval_eq hi]
  | stateParticipating pct m states s l h1 hi hmem =>
      simp [evalRule, h1, incomeEval_eq hi, hmem]
  | stateCapped pct m states s l h1 hi hmem =>
      simp [evalRule, h1, incomeEval_eq hi, hmem]

/-- The judgment relation is total: the computed value is always derivable. -/
theorem incomeEval_total (t : ThresholdTable) (p : EligProfile) (pct m : ℚ)
    (sec : Option ℚ) : IncomeEval t p pct m sec (evalIncome t p pct m sec) := by
  by_cases h1 : p.annual_income ≤ itThreshold t p.household_size pct
  · unfold evalIncome; rw [if_pos h1]
    exact .atOrBelow sec h1
  · by_cases h2 : p.annual_income ≤
        itThreshold t p.household_size pct * (100 + m) / 100
    · unfold evalIncome; rw [if_neg h1, if_pos h2]
      exact .nearThreshold sec h1 h2
    · cases sec with
      | none =>
          unfold evalIncome; rw [if_neg h1, if_neg h2]
          exact .excluded h1 h2
      | some s =>
          by_cases h3 : p.annual_income ≤ itThreshold t p.household_size s
          · unfold evalIncome; rw [if_neg h1, if_neg h2]
            show IncomeEval t p pct m (some s) (if p.annual_income ≤
              itThreshold t p.household_size s then some .low else none)
            rw [if_pos h3]
            exact .secondaryLow s h1 h2 h3
          · unfold evalIncome; rw [if_neg h1, if_neg h2]
            show IncomeEval t p pct m (some s) (if p.annual_income ≤
              itThreshold t p.household_size s then some .low else none)
            rw [if_neg h3]
            exact .secondaryExcluded s h1 h2 h3

/-- The per-rule judgment relation is total. -/
theorem ruleEval_total (t : ThresholdTable) (p : EligProfile) (r : Rule) :
    RuleEval t p r (evalRule t p r) := by
  cases r with
  | incomeThreshold pct m sec => exact .income pct m sec _ (incomeEval_total t p pct m sec)
  | phaseInOut b c d =>
      by_cases h1 : p.annual_income ≤ d
      · by_cases h2 : b < p.annual_income ∧ p.annual_income < c
        · rw [evalRule, if_pos h1, if_pos h2]
          exact .phasePlateau b c d h1 h2
        · rw [evalRule, if_pos h1, if_neg h2]
          exact .phaseBand b c d h1 h2
      · rw [evalRule, if_neg h1]
        exact .phaseBeyondCutoff b c d h1
  | fixedCap ceiling =>
      by_cases h1 : p.annual_income < ceiling
      · rw [evalRule, if_pos h1]
        exact .capEligible ceiling h1
      · rw [evalRule, if_neg h1]
        exact .capExcluded ceiling h1
  | amiRelative pct m =>
      by_cases h1 : p.annual_income ≤ amiThreshold t p.household_size pct
      · rw [evalRule, if_pos h1]
        exact .amiAtOrBelow pct m h1
      · by_cases h2 : p.annual_income ≤
            amiThreshold t p.household_size pct * (100 + m) / 100
        · rw [evalRule, if_neg h1, if_pos h2]
          exact .amiNear pct m h1 h2
        · rw [evalRule, if_neg h1, if_neg h2]
          exact .amiExcluded pct m h1 h2
  | stateConditional pct m states =>
      cases hs : p.state with
      | none =>
          rw [evalRule, hs]
          exact .stateUnknown pct m states hs
      | some s =>
          cases hinc : evalIncome t p pct m none with
          | none =>
              rw [evalRule, hs, hinc]
              exact .stateIncomeExcluded pct m states s hs (hinc ▸ incomeEval_total t p pct m none)
          | some l =>
              by_cases hmem : s ∈ states
              · have he : evalRule t p (.stateConditional pct m states) = some l := by
                  simp [evalRule, hs, hinc, hmem]
                rw [he]
                exact .stateParticipating pct m states s l hs
                  (hinc ▸ incomeEval_total t p pct m none) hmem
              · have he : evalRule t p (.stateConditional pct m states) = some .low := by
                  simp [evalRule, hs, hinc, hmem]
                rw [he]
                exact .stateCapped pct m states s l hs
                  (hinc ▸ incomeEval_total t p pct m none) hmem

/-- Modelled from the spec (§4.1): a full evaluation of the engine over the
catalog — each program's judgment is derivable against the profile. -/
def EngineEval (t : ThresholdTable) (p : EligProfile) (catalog : List Program)
    (outs : List (Option Likelihood)) : Prop :=
  List.Forall₂ (fun prog o => RuleEval t p prog.rule o) catalog outs

/-- Assemble the `EligibilityResult` list from the per-program judgments,
omitting programs without one. -/
def mkResults (catalog : List Program) (outs : List (Option Likelihood)) :
    List EligibilityResult :=
  (catalog.zip outs).filterMap fun pr =>
    pr.2.map fun l => ⟨pr.1.id, l, pr.1.estimated_value⟩

/-- C2: The rule engine is deterministic — any two evaluations of the same
profile against the same catalog and threshold tables produce identical
per-program judgments, hence identical `EligibilityResult` lists.  The engine
relation has no source of randomness or external input. -/
theorem engine_deterministic (t : ThresholdTable) (p : EligProfile)
    (catalog : List Program) (outs₁ outs₂ : List (Option Likelihood))
    (h₁ : EngineEval t p catalog outs₁) (h₂ : EngineEval t p catalog outs₂) :
    outs₁ = outs₂ ∧ mkResults catalog outs₁ = mkResults catalog outs₂ := by
  have key : outs₁ = outs₂ := by
    induction h₁ generalizing outs₂ with
    | nil => cases h₂; rfl
    | cons hr hrest ih =>
        cases h₂ with
        | cons hr' hrest' =>
            have ho := (ruleEval_eq hr).symm.trans (ruleEval_eq hr')
            rw [ho, ih _ hrest']
  exact ⟨key, by rw [key]⟩

/-- Witness for `engine_deterministic`: a one-program catalog evaluated twice
against the same profile and table, using the totality of the judgment
relation to produce the two derivations. -/
theorem engine_deterministic_witness :
    [evalRule ⟨fun _ => 15000, fun _ => 50000⟩ ⟨14400, 1, some "TX", none, none, none⟩
      (.incomeThreshold 130 10 none)] =
    [evalRule ⟨fun _ => 15000, fun _ => 50000⟩ ⟨14400, 1, some "TX", none, none, none⟩
      (.incomeThreshold 130 10 none)] ∧
    mkResults [⟨"snap", "SNAP", .incomeThreshold 130 10 none, "$200/month"⟩]
      [evalRule ⟨fun _ => 15000, fun _ => 50000⟩ ⟨14400, 1, some "TX", none, none, none⟩
        (.incomeThreshold 130 10 none)] =
    mkResults [⟨"snap", "SNAP", .incomeThreshold 130 10 none, "$200/month"⟩]
      [evalRule ⟨fun _ => 15000, fun _ => 50000⟩ ⟨14400, 1, some "TX", none, none, none⟩
        (.incomeThreshold 130 10 none)] :=
  engine_deterministic ⟨fun _ => 15000, fun _ => 50000⟩
    ⟨14400, 1, some "TX", none, none, none⟩
    [⟨"snap", "SNAP", .incomeThreshold 130 10 none, "$200/month"⟩] _ _
    (List.Forall₂.cons (ruleEval_total _ _ _) List.Forall₂.nil)
    (List.Forall₂.cons (ruleEval_total _ _ _) List.Forall₂.nil)

/-! ### C8: `chatStream` dispatches deltas in order, then the terminal event

Embedding of `chatStream` from `frontend/js/api.js`: the SSE framing (buffer
accumulation, splitting on blank lines, `data:` extraction) is translated
directly; `JSON.parse` is a platform primitive and is passed in as a `parse`
parameter returning `none` on parse failure (the source ignores parse
errors). -/

/-- JavaScript string text, modelled as its character list. -/
abbrev Chars := List Char

/-- Whitespace as removed by JavaScript `trim`. -/
def isWsChar (c : Char) : Bool :=
  c == ' ' || c == '\n' || c == '\t' || c == '\r'

/-- JavaScript `trim`: drop whitespace from both ends. -/
def trimChars (l : Chars) : Chars :=
  ((l.dropWhile isWsChar).reverse.dropWhile isWsChar).reverse

/-- JavaScript `split('\n\n')`: greedy leftmost split on a blank line. -/
def splitOnBlankLine : Chars → List Chars
  | [] => [[]]
  | '\n' :: '\n' :: rest => [] :: splitOnBlankLine rest
  | c :: rest =>
      match splitOnBlankLine rest with
      | [] => [[c]]
      | h :: t => (c :: h) :: t

/-- One read-loop step of `chatStream`: append the chunk to the buffer, split
on blank lines, keep the incomplete last piece as the new buffer and hand the
complete pieces on (`lines.pop()` in the source). -/
def sseChunkStep (buffer chunk : Chars) : Chars × List Chars :=
  let parts := splitOnBlankLine (buffer ++ chunk)
  (parts.getLastD [], parts.dropLast)

/-- Extraction of the `data:` payload strings from complete SSE pieces:
trim, require the `data:` marker, strip it, trim again, and skip empties —
exactly the `continue` chain of the source. -/
def sseDataStrings (pieces : List Chars) : List Chars :=
  pieces.filterMap fun piece =>
    let line := trimChars piece
    if "data:".toList.isPrefixOf line then
      let jsonStr := trimChars (line.drop 5)
      if jsonStr = [] then none else some jsonStr
    else none

/-- The full framing layer of `chatStream`: fold the read chunks through the
buffer, collecting the `data:` payload strings in stream order (the unread
final buffer is discarded when the reader reports done, as in the source). -/
def sseEvents (chunks : List Chars) : List Chars :=
  (chunks.foldl
    (fun acc chunk =>
      let step := sseChunkStep acc.1 chunk
      (step.1, acc.2 ++ sseDataStrings step.2))
    (([] : Chars), ([] : List Chars))).2

/-- A parsed stream event payload: `done` flag, optional text delta, and the
terminal content (trace and session snapshot). -/
structure StreamPayload where
  done : Bool
  delta : Option String
  tool_calls : List ToolCall
  session_data : String
deriving DecidableEq, Repr

/-- A callback invocation made by `chatStream`. -/
inductive StreamCallback where
  | onDelta (s : String)
  | onDone (payload : StreamPayload)
deriving DecidableEq, Repr

/-- The dispatch loop of `chatStream`: parse failures are ignored, a payload
with `done` set goes to `onDone`, otherwise a payload with a `delta` field
goes to `onDelta`. -/
def dispatchPayloads : List (Option StreamPayload) → List StreamCallback
  | [] => []
  | none :: rest => dispatchPayloads rest
  | some pl :: rest =>
      (if pl.done then [.onDone pl]
       else
         match pl.delta with
         | some d => [.onDelta d]
         | none => []) ++ dispatchPayloads rest

/-- The callback sequence `chatStream` produces for a byte-chunk stream under
a given JSON parser. -/
def chatStreamRun (chunks : List Chars) (parse : Chars → Option StreamPayload) :
    List StreamCallback :=
  dispatchPayloads ((sseEvents chunks).map parse)

theorem dispatch_shape (term : StreamPayload) (hterm : term.done = true) :
    ∀ (deltas : List StreamPayload), (∀ q ∈ deltas, q.done = false) →
      dispatchPayloads (deltas.map some ++ [some term]) =
        (deltas.filterMap StreamPayload.delta).map StreamCallback.onDelta ++
          [StreamCallback.onDone term] := by
  intro deltas
  induction deltas with
  | nil =>
      intro _
      simp [dispatchPayloads, hterm]
  | cons q rest ih =>
      intro h
      have hq : q.done = false := h q (List.mem_cons_self q rest)
      have hrest := fun x hx => h x (List.mem_cons_of_mem q hx)
      show dispatchPayloads (some q :: (rest.map some ++ [some term])) = _
      cases hd : q.delta with
      | none => simp [dispatchPayloads, hq, hd, ih hrest]
      | some d => simp [dispatchPayloads, hq, hd, ih hrest]

/-- C8: When the parsed event stream consists of delta payloads followed by a
single terminal payload (the server-side ordering guarantee of the spec's
Streaming Responder, modelled as the hypothesis on the stream shape),
`chatStream` invokes `onDelta` once per delta payload, in stream order, and
invokes `onDone` with the terminal payload after all of them. -/
theorem chatStream_order (chunks : List Chars) (parse : Chars → Option StreamPayload)
    (deltas : List StreamPayload) (term : StreamPayload)
    (hshape : (sseEvents chunks).map parse = deltas.map some ++ [some term])
    (hdeltas : ∀ q ∈ deltas, q.done = false) (hterm : term.done = true) :
    chatStreamRun chunks parse =
      (deltas.filterMap StreamPayload.delta).map StreamCallback.onDelta ++
        [StreamCallback.onDone term] := by
  unfold chatStreamRun
  rw [hshape]
  exact dispatch_shape term hterm deltas hdeltas

/-- Witness for `chatStream_order`: one network chunk carrying two SSE events,
a delta "Hello" and a terminal payload. -/
theorem chatStream_order_witness :
    chatStreamRun ["data: A\n\ndata: B\n\n".toList]
      (fun s =>
        if s = "A".toList then some ⟨false, some "Hello", [], ""⟩
        else if s = "B".toList then some ⟨true, none, [], "sess_1"⟩
        else none) =
      ([⟨false, some "Hello", [], ""⟩].filterMap StreamPayload.delta).map
          StreamCallback.onDelta ++
        [StreamCallback.onDone ⟨true, none, [], "sess_1"⟩] :=
  chatStream_order ["data: A\n\ndata: B\n\n".toList]
    (fun s =>
      if s = "A".toList then some ⟨false, some "Hello", [], ""⟩
      else if s = "B".toList then some ⟨true, none, [], "sess_1"⟩
      else none)
    [⟨false, some "Hello", [], ""⟩] ⟨true, none, [], "sess_1"⟩
    (by decide) (by decide) rfl

/-! ### C9: error behaviour of the API client's `post` helper

Embedding of `post` from `frontend/js/api.js`.  `res.json()` is modelled as
the pre-parsed `body` field: `none` when the body is not parseable JSON (in
which case the promise returned by `res.json()` rejects). -/

/-- A parsed JSON response body: its optional `detail` field plus the rest of
the document (opaque). -/
structure JsonBody where
  detail : Option String
  rest : String
deriving DecidableEq, Repr

/-- A fetch response as observed by `post`. -/
structure HttpResponse where
  ok : Bool
  status : Nat
  statusText : String
  body : Option JsonBody
deriving DecidableEq, Repr

/-- Outcome of `post`: the resolved JSON body, or the thrown error message. -/
inductive PostResult where
  | success (body : JsonBody)
  | failure (message : String)
deriving DecidableEq, Repr

/-- The error message built on a non-ok response:
`err.detail || 'HTTP <status>'` where `err` is the parsed body, or
`{detail: res.statusText}` when the body fails to parse.  An empty string is
falsy in JavaScript, hence the emptiness checks. -/
def errMessage (r : HttpResponse) : String :=
  let detail : Option String :=
    match r.body with
    | some b => b.detail
    | none => some r.statusText
  match detail with
  | some d => if d = "" then "HTTP " ++ toString r.status else d
  | none => "HTTP " ++ toString r.status

/-- Embedding of `post`: on a non-ok response, throw the constructed error;
on an ok response return `res.json()`, whose rejection propagates when the
body is not parseable JSON. -/
def post (r : HttpResponse) : PostResult :=
  if r.ok then
    match r.body with
    | some b => .success b
    | none => .failure "SyntaxError: response body is not valid JSON"
  else .failure (errMessage r)

/-- C9 counterexample: the claim's "raises an error if and only if the HTTP
response is not ok … on an ok response it … never throws" fails — an ok
response whose body is not parseable JSON makes `post` throw, because the
rejection of `res.json()` propagates. -/
theorem post_ok_can_fail :
    (⟨true, 200, "OK", none⟩ : HttpResponse).ok = true ∧
    post ⟨true, 200, "OK", none⟩ =
      .failure "SyntaxError: response body is not valid JSON" :=
  ⟨rfl, rfl⟩

/-- C9 (amended): `post` raises an error iff the response is not ok or the ok
body is not parseable JSON.  On a non-ok response the message is the parsed
body's `detail` field when present and non-empty, falling back to the status
text when the body is not parseable (or to `"HTTP <status>"` when that is
empty); on an ok response with a parseable body it returns the parsed body. -/
theorem post_error_characterization (r : HttpResponse) :
    ((∃ m, post r = .failure m) ↔ (r.ok = false ∨ r.body = none)) ∧
    (r.ok = false → post r = .failure (errMessage r)) ∧
    (∀ b, r.ok = true → r.body = some b → post r = .success b) ∧
    (∀ b d, r.body = some b → b.detail = some d → d ≠ "" → errMessage r = d) ∧
    (r.body = none → r.statusText ≠ "" → errMessage r = r.statusText) ∧
    (r.body = none → r.statusText = "" → errMessage r = "HTTP " ++ toString r.status) := by
  refine ⟨⟨?_, ?_⟩, ?_, ?_, ?_, ?_, ?_⟩
  · rintro ⟨m, hm⟩
    cases hok : r.ok with
    | false => exact Or.inl rfl
    | true =>
        cases hb : r.body with
        | none => exact Or.inr rfl
        | some b => simp [post, hok, hb] at hm
  · intro h
    rcases h with hok | hb
    · exact ⟨errMessage r, by simp [post, hok]⟩
    · cases hok : r.ok with
      | true =>
          exact ⟨"SyntaxError: response body is not valid JSON", by simp [post, hok, hb]⟩
      | false => exact ⟨errMessage r, by simp [post, hok]⟩
  · intro hok
    simp [post, hok]
  · intro b hok hb
    simp [post, hok, hb]
  · intro b d hb hd hne
    simp [errMessage, hb, hd, hne]
  · intro hb hne
    simp [errMessage, hb, hne]
  · intro hb he
    simp [errMessage, hb, he]

/-- Witness for `post_error_characterization`: a 400 response whose body
carries `detail = "Negative income"`. -/
theorem post_error_characterization_witness :
    post ⟨false, 400, "Bad Request", some ⟨some "Negative income", ""⟩⟩ =
      .failure (errMessage ⟨false, 400, "Bad Request", some ⟨some "Negative income", ""⟩⟩) ∧
    errMessage ⟨false, 400, "Bad Request", some ⟨some "Negative income", ""⟩⟩ =
      "Negative income" :=
  ⟨(post_error_characterization ⟨false, 400, "Bad Request",
      some ⟨some "Negative income", ""⟩⟩).2.1 rfl,
   (post_error_characterization ⟨false, 400, "Bad Request",
      some ⟨some "Negative income", ""⟩⟩).2.2.2.1 ⟨some "Negative income", ""⟩
      "Negative income" rfl rfl (by decide)⟩

/-! ### C10: document-type guessing from the lowercased filename -/

/-- Sequence search: `needle` occurs contiguously inside the haystack. -/
def containsSeq (needle : Chars) : Chars → Bool
  | [] => needle.isEmpty
  | c :: rest => needle.isPrefixOf (c :: rest) || containsSeq needle rest

/-- JavaScript `name.includes(keyword)` on a lowercased name held as its
character list. -/
def containsKw (name : Chars) (kw : String) : Bool :=
  containsSeq kw.data name

/-- JavaScript `toLowerCase`, character by character. -/
def lowerChars (s : String) : Chars :=
  s.data.map Char.toLower

/-- Embedding of the document-type guess in `uploadDocument`
(`frontend/js/api.js`): first-match `if`/`else if` chain over the lowercased
filename. -/
def guessDocType (filename : String) : String :=
  let name := lowerChars filename
  if containsKw name "pay" || containsKw name "stub" || containsKw name "salary" then
    "pay_stub"
  else if containsKw name "tax" || containsKw name "w2" || containsKw name "1040" then
    "tax_return"
  else if containsKw name "bill" || containsKw name "electric" || containsKw name "gas" then
    "utility_bill"
  else if containsKw name "lease" || containsKw name "rent" then "lease"
  else if containsKw name "medical" || containsKw name "health" then "medical_record"
  else "unknown"

/-- The filename (lowercased) contains one of the given keywords. -/
def hasKeyword (filename : String) (kws : List String) : Bool :=
  kws.any fun kw => containsKw (lowerChars filename) kw

/-- C10: `guessDocType` classifies by first-match precedence over the
lowercased filename: pay-stub keywords win over tax keywords, which win over
utility-bill keywords, then lease, then medical, and `unknown` only when no
keyword occurs. -/
theorem guessDocType_precedence (f : String) :
    (hasKeyword f ["pay", "stub", "salary"] = true → guessDocType f = "pay_stub") ∧
    (hasKeyword f ["pay", "stub", "salary"] = false →
      hasKeyword f ["tax", "w2", "1040"] = true → guessDocType f = "tax_return") ∧
    (hasKeyword f ["pay", "stub", "salary"] = false →
      hasKeyword f ["tax", "w2", "1040"] = false →
      hasKeyword f ["bill", "electric", "gas"] = true → guessDocType f = "utility_bill") ∧
    (hasKeyword f ["pay", "stub", "salary"] = false →
      hasKeyword f ["tax", "w2", "1040"] = false →
      hasKeyword f ["bill", "electric", "gas"] = false →
      hasKeyword f ["lease", "rent"] = true → guessDocType f = "lease") ∧
    (hasKeyword f ["pay", "stub", "salary"] = false →
      hasKeyword f ["tax", "w2", "1040"] = false →
      hasKeyword f ["bill", "electric", "gas"] = false →
      hasKeyword f ["lease", "rent"] = false →
      hasKeyword f ["medical", "health"] = true → guessDocType f = "medical_record") ∧
    (hasKeyword f ["pay", "stub", "salary"] = false →
      hasKeyword f ["tax", "w2", "1040"] = false →
      hasKeyword f ["bill", "electric", "gas"] = false →
      hasKeyword f ["lease", "rent"] = false →
      hasKeyword f ["medical", "health"] = false → guessDocType f = "unknown") := by
  refine ⟨fun h1 => ?_, fun h1 h2 => ?_, fun h1 h2 h3 => ?_, fun h1 h2 h3 h4 => ?_,
    fun h1 h2 h3 h4 h5 => ?_, fun h1 h2 h3 h4 h5 => ?_⟩ <;>
    simp only [hasKeyword, List.any_cons, List.any_nil, Bool.or_false,
      Bool.or_eq_true, Bool.or_eq_false_iff] at *
  · rcases h1 with h | h | h <;> simp [guessDocType, h]
  · obtain ⟨h1a, h1b, h1c⟩ := h1
    rcases h2 with h | h | h <;> simp [guessDocType, h1a, h1b, h1c, h]
  · obtain ⟨h1a, h1b, h1c⟩ := h1
    obtain ⟨h2a, h2b, h2c⟩ := h2
    rcases h3 with h | h | h <;>
      simp [guessDocType, h1a, h1b, h1c, h2a, h2b, h2c, h]
  · obtain ⟨h1a, h1b, h1c⟩ := h1
    obtain ⟨h2a, h2b, h2c⟩ := h2
    obtain ⟨h3a, h3b, h3c⟩ := h3
    rcases h4 with h | h <;>
      simp [guessDocType, h1a, h1b, h1c, h2a, h2b, h2c, h3a, h3b, h3c, h]
  · obtain ⟨h1a, h1b, h1c⟩ := h1
    obtain ⟨h2a, h2b, h2c⟩ := h2
    obtain ⟨h3a, h3b, h3c⟩ := h3
    obtain ⟨h4a, h4b⟩ := h4
    rcases h5 with h | h <;>
      simp [guessDocType, h1a, h1b, h1c, h2a, h2b, h2c, h3a, h3b, h3c, h4a, h4b, h]
  · obtain ⟨h1a, h1b, h1c⟩ := h1
    obtain ⟨h2a, h2b, h2c⟩ := h2
    obtain ⟨h3a, h3b, h3c⟩ := h3
    obtain ⟨h4a, h4b⟩ := h4
    obtain ⟨h5a, h5b⟩ := h5
    simp [guessDocType, h1a, h1b, h1c, h2a, h2b, h2c, h3a, h3b, h3c, h4a, h4b,
      h5a, h5b]

/-- Witness for `guessDocType_precedence`: a filename matching both the
pay-stub rule and the utility-bill rule is classified by the earlier rule. -/
theorem guessDocType_precedence_witness : guessDocType "PayBill.png" = "pay_stub" :=
  (guessDocType_precedence "PayBill.png").1 (by decide)

end Compass
